import Mathlib

/-!
Verification of the OnlyOffice fnOS connector against its specification.

The Go sources are shallowly embedded: strings are `List Char`, the
filesystem is an explicit association list threaded through the file
service, HTTP handlers are pure functions from their parsed inputs to a
response value plus the list of store writes they request, and the
external collaborators (the golang-jwt HS256 library, the Go standard
library's path cleaning) are embedded at the level of their documented
behaviour.
-/

/-- Strings are modelled as lists of characters. -/
abbrev Str := List Char

/-- Model of strings.Split for a single-character separator: splits the
list on every occurrence of `sep` (the separator is dropped). -/
def splitOnChar (sep : Char) : Str → List Str
  | [] => [[]]
  | c :: cs =>
    match splitOnChar sep cs with
    | [] => [[c]]
    | a :: as => if c = sep then [] :: a :: as else (c :: a) :: as

/-- Split at the first occurrence of `sep`: returns the part before and
the part after, or `none` when `sep` does not occur (models
strings.Index followed by slicing). -/
def splitFirst (sep : Char) : Str → Option (Str × Str)
  | [] => none
  | c :: cs =>
    if c = sep then some ([], cs)
    else (splitFirst sep cs).map (fun p => (c :: p.1, p.2))

/-- First-match association-list lookup, keyed by strings. -/
def assocLookup {α : Type} (key : Str) : List (Str × α) → Option α
  | [] => none
  | (k, v) :: rest => if k = key then some v else assocLookup key rest

/-- Model of strings.ToLower. -/
def lowerStr (s : Str) : Str := s.map Char.toLower

/-- Model of strings.TrimPrefix with the one-character prefix ".". -/
def trimDot (s : Str) : Str :=
  match s with
  | c :: rest => if c = '.' then rest else c :: rest
  | [] => []

theorem splitOnChar_ne_nil (sep : Char) (ys : Str) : splitOnChar sep ys ≠ [] := by
  induction ys with
  | nil => simp [splitOnChar]
  | cons b bs ih =>
    simp only [splitOnChar]
    cases hsp : splitOnChar sep bs with
    | nil => exact absurd hsp ih
    | cons a as => by_cases hb : b = sep <;> simp [hb]

theorem splitOnChar_not_mem {sep : Char} {xs : Str} (h : sep ∉ xs) :
    splitOnChar sep xs = [xs] := by
  induction xs with
  | nil => rfl
  | cons c cs ih =>
    have hc : c ≠ sep := fun hc => h (hc ▸ List.mem_cons_self c cs)
    have hcs : sep ∉ cs := fun hm => h (List.mem_cons_of_mem c hm)
    simp only [splitOnChar, ih hcs]
    simp [hc]

theorem splitOnChar_append {sep : Char} {xs : Str} (ys : Str) (h : sep ∉ xs) :
    splitOnChar sep (xs ++ sep :: ys) = xs :: splitOnChar sep ys := by
  induction xs with
  | nil =>
    simp only [List.nil_append, splitOnChar]
    cases hys : splitOnChar sep ys with
    | nil => exact absurd hys (splitOnChar_ne_nil sep ys)
    | cons a as => simp
  | cons c cs ih =>
    have hc : c ≠ sep := fun hc => h (hc ▸ List.mem_cons_self c cs)
    have hcs : sep ∉ cs := fun hm => h (List.mem_cons_of_mem c hm)
    simp only [List.cons_append, splitOnChar, List.append_eq]
    rw [ih hcs]
    simp [hc]

theorem splitFirst_append {sep : Char} {xs : Str} (ys : Str) (h : sep ∉ xs) :
    splitFirst sep (xs ++ sep :: ys) = some (xs, ys) := by
  induction xs with
  | nil => simp [splitFirst]
  | cons c cs ih =>
    have hc : c ≠ sep := fun hc => h (hc ▸ List.mem_cons_self c cs)
    have hcs : sep ∉ cs := fun hm => h (List.mem_cons_of_mem c hm)
    simp [splitFirst, hc, ih hcs]

/-! ## Signing module (internal/jwt/jwt.go)

The wrapper delegates to the external golang-jwt HS256 library. The
library is embedded at the level of its wire behaviour: a token is
`header.payload.signature` with dot-free sections, the payload section
is an injective dot-free encoding of the claims (the role base64url
plays on the wire), and the HMAC-SHA256 signature is idealized as an
injective function of the secret and the signing input. Claims are kept
opaque (a serialized payload string), matching the module's
"sign arbitrary small JSON object" contract. `Sign` never sets an
expiry, so the expiry branch of verification is never reachable from
tokens produced here. -/

namespace Jwt

inductive JwtError where
  | invalidToken
  | expiredToken
  | invalidClaim
deriving DecidableEq, Repr

/-- Dot-free injective encoding of one character ('e' is the escape
character; '.' and '|' are kept out of the image so they can serve as
the token and MAC separators). -/
def escChar (c : Char) : Str :=
  if c = '.' then ['e', 'd']
  else if c = 'e' then ['e', 'e']
  else if c = '|' then ['e', 'p']
  else [c]

/-- Dot-free injective encoding of a string (the role of base64url in
the wire format). -/
def esc : Str → Str
  | [] => []
  | c :: cs => escChar c ++ esc cs

/-- Decoder for `esc`; fails on strings that are not in its image. -/
def unesc : Str → Option Str
  | [] => some []
  | c :: cs =>
    if c = 'e' then
      match cs with
      | [] => none
      | d :: ds =>
        if d = 'd' then (unesc ds).map ('.' :: ·)
        else if d = 'e' then (unesc ds).map ('e' :: ·)
        else if d = 'p' then (unesc ds).map ('|' :: ·)
        else none
    else (unesc cs).map (c :: ·)

theorem unesc_cons_ne (c : Char) (rest : Str) (h : ¬ c = 'e') :
    unesc (c :: rest) = (unesc rest).map (c :: ·) := by
  rw [unesc.eq_def]
  simp [h]

theorem unesc_esc (s : Str) : unesc (esc s) = some s := by
  induction s with
  | nil => rfl
  | cons c cs ih =>
    by_cases h1 : c = '.'
    · simp [esc, escChar, unesc, h1, ih]
    · by_cases h2 : c = 'e'
      · simp [esc, escChar, unesc, h1, h2, ih]
      · by_cases h3 : c = '|'
        · simp [esc, escChar, unesc, h1, h2, h3, ih]
        · simp only [esc, escChar, if_neg h1, if_neg h2, if_neg h3,
            List.singleton_append]
          rw [unesc_cons_ne c _ h2, ih]
          rfl

theorem esc_injective {s t : Str} (h : esc s = esc t) : s = t := by
  have := unesc_esc s
  rw [h, unesc_esc] at this
  exact (Option.some_inj.mp this).symm

theorem dot_not_mem_escChar (c : Char) : '.' ∉ escChar c := by
  unfold escChar
  split
  · decide
  · split
    · decide
    · split
      · decide
      · rename_i h1 h2 h3
        simp only [List.mem_singleton]
        exact fun hx => h1 hx.symm

theorem bar_not_mem_escChar (c : Char) : '|' ∉ escChar c := by
  unfold escChar
  split
  · decide
  · split
    · decide
    · split
      · decide
      · rename_i h1 h2 h3
        simp only [List.mem_singleton]
        exact fun hx => h3 hx.symm

theorem dot_not_mem_esc (s : Str) : '.' ∉ esc s := by
  induction s with
  | nil => simp [esc]
  | cons c cs ih =>
    simp only [esc, List.mem_append]
    rintro (hm | hm)
    · exact dot_not_mem_escChar c hm
    · exact ih hm

theorem bar_not_mem_esc (s : Str) : '|' ∉ esc s := by
  induction s with
  | nil => simp [esc]
  | cons c cs ih =>
    simp only [esc, List.mem_append]
    rintro (hm | hm)
    · exact bar_not_mem_escChar c hm
    · exact ih hm

/-- Idealized HMAC-SHA256: an injective, dot-free fingerprint of the
secret and the signing input. -/
def mac (secret msg : Str) : Str := esc secret ++ '|' :: esc msg

theorem mac_injective {s₁ m₁ s₂ m₂ : Str} (h : mac s₁ m₁ = mac s₂ m₂) :
    s₁ = s₂ ∧ m₁ = m₂ := by
  have h1 := @splitFirst_append '|' (esc s₁) (esc m₁) (bar_not_mem_esc s₁)
  have h2 := @splitFirst_append '|' (esc s₂) (esc m₂) (bar_not_mem_esc s₂)
  unfold mac at h
  rw [h, h2] at h1
  obtain ⟨hs, hm⟩ := Prod.mk.injEq _ _ _ _ ▸ Option.some_inj.mp h1
  exact ⟨(esc_injective hs).symm, (esc_injective hm).symm⟩

theorem dot_not_mem_mac (secret msg : Str) : '.' ∉ mac secret msg := by
  simp only [mac, List.mem_append, List.mem_cons]
  rintro (hm | hm | hm)
  · exact dot_not_mem_esc secret hm
  · exact absurd hm.symm (by decide)
  · exact dot_not_mem_esc msg hm

/-- The encoded protected header (alg HS256), a fixed dot-free section. -/
def headerEnc : Str := esc ("HS256".data)

/-- Model of Manager.Sign: wrap the claims as the token payload and sign
header.payload with the secret (SignedString never fails for HS256, so
the Go error result is omitted). -/
def Sign (secret claims : Str) : Str :=
  let signingInput := headerEnc ++ '.' :: esc claims
  signingInput ++ '.' :: mac secret signingInput

/-- Model of Manager.Verify: parse the three dot-separated sections
(fewer or more is a malformed token), check the header, recompute and
compare the signature with the supplied secret, then decode the claims.
Each failure is ErrInvalidToken, as in the Go wrapper. -/
def Verify (secret tok : Str) : Except JwtError Str :=
  match splitOnChar '.' tok with
  | [h, p, sg] =>
    if h = headerEnc then
      if sg = mac secret (h ++ '.' :: p) then
        match unesc p with
        | some claims => .ok claims
        | none => .error .invalidToken
      else .error .invalidToken
    else .error .invalidToken
  | _ => .error .invalidToken

theorem sign_parts (secret claims : Str) :
    splitOnChar '.' (Sign secret claims) =
      [headerEnc, esc claims,
        mac secret (headerEnc ++ '.' :: esc claims)] := by
  unfold Sign
  have h1 : splitOnChar '.'
      (headerEnc ++ '.' :: (esc claims ++ '.' ::
        mac secret (headerEnc ++ '.' :: esc claims))) = _ :=
    @splitOnChar_append '.' (esc ("HS256".data))
      (esc claims ++ '.' :: mac secret (headerEnc ++ '.' :: esc claims))
      (dot_not_mem_esc ("HS256".data))
  have h2 : splitOnChar '.'
      (esc claims ++ '.' :: mac secret (headerEnc ++ '.' :: esc claims)) = _ :=
    @splitOnChar_append '.' (esc claims)
      (mac secret (headerEnc ++ '.' :: esc claims)) (dot_not_mem_esc claims)
  have h3 := splitOnChar_not_mem
    (dot_not_mem_mac secret (headerEnc ++ '.' :: esc claims))
  simp only [List.append_assoc, List.cons_append, List.nil_append] at *
  rw [h1, h2, h3]
  rfl

theorem verify_sign (secret claims : Str) :
    Verify secret (Sign secret claims) = .ok claims := by
  unfold Verify
  rw [sign_parts]
  simp [unesc_esc]

theorem verify_wrong_secret (secret other claims : Str) (hne : other ≠ secret) :
    Verify other (Sign secret claims) = .error .invalidToken := by
  unfold Verify
  rw [sign_parts]
  simp only [if_pos rfl]
  have hmac : mac secret (headerEnc ++ '.' :: esc claims) ≠
      mac other (headerEnc ++ '.' :: esc claims) := by
    intro h
    exact hne ((mac_injective h).1).symm
  simp [hmac]

end Jwt

/-! ## Capability registry (internal/format, src/unnamed/part_003) -/

/-- Format represents a file format with its properties (Go struct
`format.Format`). -/
structure Format where
  extension : Str
  type : Str
  editable : Bool
  viewOnly : Bool
  convertible : Bool
  convertTarget : Str
deriving DecidableEq, Repr

/-- The format mapping table built by `Manager.initFormats`, keyed by
extension exactly as inserted into the Go map. -/
def initFormats : List (Str × Format) :=
  [ ("docx".data, ⟨"docx".data, "word".data, true, false, false, []⟩),
    ("xlsx".data, ⟨"xlsx".data, "cell".data, true, false, false, []⟩),
    ("pptx".data, ⟨"pptx".data, "slide".data, true, false, false, []⟩),
    ("doc".data, ⟨"doc".data, "word".data, false, false, true, "docx".data⟩),
    ("odt".data, ⟨"odt".data, "word".data, false, false, true, "docx".data⟩),
    ("rtf".data, ⟨"rtf".data, "word".data, false, false, true, "docx".data⟩),
    ("txt".data, ⟨"txt".data, "word".data, false, false, true, "docx".data⟩),
    ("xls".data, ⟨"xls".data, "cell".data, false, false, true, "xlsx".data⟩),
    ("ods".data, ⟨"ods".data, "cell".data, false, false, true, "xlsx".data⟩),
    ("csv".data, ⟨"csv".data, "cell".data, false, false, true, "xlsx".data⟩),
    ("ppt".data, ⟨"ppt".data, "slide".data, false, false, true, "pptx".data⟩),
    ("odp".data, ⟨"odp".data, "slide".data, false, false, true, "pptx".data⟩),
    ("pdf".data, ⟨"pdf".data, "word".data, false, true, false, []⟩),
    ("djvu".data, ⟨"djvu".data, "word".data, false, true, false, []⟩),
    ("oxps".data, ⟨"oxps".data, "word".data, false, true, false, []⟩),
    ("epub".data, ⟨"epub".data, "word".data, false, true, false, []⟩),
    ("fb2".data, ⟨"fb2".data, "word".data, false, true, false, []⟩) ]

/-- Model of `Manager.GetFormat`: dot- and case-insensitive registry
lookup. -/
def getFormat (extension : Str) : Option Format :=
  assocLookup (lowerStr (trimDot extension)) initFormats

/-- Model of `Manager.IsConvertible`. -/
def isConvertible (extension : Str) : Bool :=
  match getFormat extension with
  | none => false
  | some f => f.convertible

/-- Model of `Manager.GetConvertTarget`. -/
def getConvertTarget (extension : Str) : Str :=
  match getFormat extension with
  | none => []
  | some f => if f.convertible then f.convertTarget else []

/-! ## Atomic document store (internal/file/service.go) -/

inductive FileError where
  | notFound
  | invalidPath
  | permissionDenied
  | saveFailed
  | tooLarge
deriving DecidableEq, Repr

/-- The file service configuration (Go struct `file.Service`): optional
root `basePath` and a size cap in bytes (`0` means no limit). -/
structure Service where
  basePath : Str
  maxFileSize : Int
deriving DecidableEq, Repr

/-- One step of Go path.Clean element processing ("" and "." are
dropped, ".." pops unless the stack is empty — at the root ".." is
dropped, otherwise kept). The stack holds elements in reverse order. -/
def cleanPush (rooted : Bool) (stack : List Str) (e : Str) : List Str :=
  if e = [] ∨ e = ['.'] then stack
  else if e = ['.', '.'] then
    match stack with
    | t :: rest => if t = ['.', '.'] then e :: t :: rest else rest
    | [] => if rooted then [] else [e]
  else e :: stack

/-- Join path elements with '/' separators. -/
def joinSlash : List Str → Str
  | [] => []
  | [e] => e
  | e :: rest => e ++ '/' :: joinSlash rest

/-- Model of Go filepath.Clean for slash-separated paths. -/
def goClean (p : Str) : Str :=
  let rooted := p.head? = some '/'
  let stack := (splitOnChar '/' p).foldl (cleanPush rooted) []
  let body := joinSlash stack.reverse
  if rooted then
    if body = [] then ['/'] else '/' :: body
  else
    if body = [] then ['.'] else body

/-- Model of Go filepath.IsAbs for slash-separated paths. -/
def goIsAbs (p : Str) : Bool := p.head? = some '/'

/-- Model of Go filepath.Join on two elements (empty elements are
dropped, the result is Cleaned). -/
def goJoin (a b : Str) : Str :=
  if a = [] then goClean b
  else if b = [] then goClean a
  else goClean (a ++ '/' :: b)

/-- Model of Go filepath.Abs: an absolute path is Cleaned, a relative
path is joined onto the process working directory `cwd`. -/
def goAbs (cwd p : Str) : Str :=
  if goIsAbs p then goClean p else goJoin cwd p

/-- Model of `Service.resolvePath` (src/internal/file/service.go:157):
reject the empty path, normalize a missing leading slash, Clean, and
when a root `basePath` is configured accept exactly the paths whose
absolute form has the absolute base as a *string* prefix. -/
def resolvePath (cwd : Str) (s : Service) (path : Str) : Except FileError Str :=
  if path = [] then .error .invalidPath
  else
    let path := if path.head? = some '/' then path else '/' :: path
    let cleanPath := goClean path
    if s.basePath ≠ [] then
      let cleanPath := if ¬ goIsAbs cleanPath then goJoin s.basePath cleanPath
                       else cleanPath
      let absPath := goAbs cwd cleanPath
      let absBase := goAbs cwd s.basePath
      if absBase.isPrefixOf absPath then .ok absPath else .error .invalidPath
    else .ok cleanPath

/-- A filesystem entry: file bytes (bytes are opaque naturals),
modification time, directory flag. -/
structure FsEntry where
  content : List Nat
  modTime : Int
  isDir : Bool
deriving DecidableEq, Repr

/-- The filesystem state: an association list from absolute path to
entry (first match wins). -/
abbrev Fs := List (Str × FsEntry)

/-- Go `FileInfo` (internal/file/service.go). -/
structure FileInfo where
  path : Str
  name : Str
  extension : Str
  size : Int
  modTime : Int
deriving DecidableEq, Repr

/-- Base name of a slash-separated path (model of the name reported by
os.Stat). -/
def baseName (p : Str) : Str := (splitOnChar '/' p).getLastD []

/-- Lowercased extension without the leading dot, as computed by
`GetFileInfo` from filepath.Ext (empty when the name has no dot). -/
def extFromName (n : Str) : Str :=
  let parts := splitOnChar '.' n
  if parts.length ≤ 1 then [] else lowerStr (parts.getLastD [])

/-- Model of `Service.GetFileInfo`: resolve the path, stat the entry,
reject directories, and report name/extension/size/mod-time. -/
def getFileInfo (cwd : Str) (s : Service) (fs : Fs) (path : Str) :
    Except FileError FileInfo :=
  match resolvePath cwd s path with
  | .error e => .error e
  | .ok fullPath =>
    match assocLookup fullPath fs with
    | none => .error .notFound
    | some entry =>
      if entry.isDir then .error .invalidPath
      else
        let name := baseName fullPath
        .ok ⟨path, name, extFromName name, (entry.content.length : Int),
          entry.modTime⟩

/-- Model of `Service.GetFileContent`: resolve the path and open the
file. -/
def getFileContent (cwd : Str) (s : Service) (fs : Fs) (path : Str) :
    Except FileError (List Nat) :=
  match resolvePath cwd s path with
  | .error e => .error e
  | .ok fullPath =>
    match assocLookup fullPath fs with
    | none => .error .notFound
    | some entry => .ok entry.content

/-- Failure-injection environment for `SaveFile`: whether each
filesystem side step (MkdirAll, CreateTemp, Close, Rename) succeeds. -/
structure SaveEnv where
  mkdirOk : Bool
  createTempOk : Bool
  closeOk : Bool
  renameOk : Bool
deriving DecidableEq, Repr

/-- The incoming byte stream: the bytes it yields, and whether it ends
in a non-EOF read error (after yielding them) instead of EOF. -/
structure ByteStream where
  data : List Nat
  readErr : Bool
deriving DecidableEq, Repr

deriving instance DecidableEq for Except

/-- Result of a save: the Go return value, the filesystem after the
call, and the leftover temporary file if one was left behind (`none`
when the temporary file was renamed away or removed). -/
structure SaveOutcome where
  result : Except FileError Unit
  fs : Fs
  tempLeft : Option (List Nat)
deriving DecidableEq, Repr

/-- Tail of `SaveFile` after the temp file holds `content`: close the
temp file, atomically rename it onto the destination. The deferred
cleanup removes the temp file on every failure path, and the rename
consumes it on success, so `tempLeft` is `none` in every case. -/
def finishSave (env : SaveEnv) (fs : Fs) (now : Int) (fullPath : Str)
    (content : List Nat) : SaveOutcome :=
  if ¬ env.closeOk then ⟨.error .saveFailed, fs, none⟩
  else if ¬ env.renameOk then ⟨.error .saveFailed, fs, none⟩
  else ⟨.ok (), (fullPath, ⟨content, now, false⟩) :: fs, none⟩

/-- Model of `Service.SaveFile` (src/internal/file/service.go:103):
resolve the path, ensure the directory, create a temp file next to the
destination, copy the stream (with `io.CopyN(_, _, maxFileSize+1)` and
the `written > maxFileSize` cap check when a cap is configured), close,
and atomically rename. `now` is the write timestamp recorded for the
new entry. -/
def saveFile (cwd : Str) (env : SaveEnv) (now : Int) (s : Service) (fs : Fs)
    (path : Str) (st : ByteStream) : SaveOutcome :=
  match resolvePath cwd s path with
  | .error e => ⟨.error e, fs, none⟩
  | .ok fullPath =>
    if ¬ env.mkdirOk then ⟨.error .saveFailed, fs, none⟩
    else if ¬ env.createTempOk then ⟨.error .saveFailed, fs, none⟩
    else if s.maxFileSize > 0 then
      let limit := s.maxFileSize.toNat + 1
      let written := min limit st.data.length
      if written > s.maxFileSize.toNat then ⟨.error .tooLarge, fs, none⟩
      else if st.data.length < limit ∧ st.readErr then
        ⟨.error .saveFailed, fs, none⟩
      else finishSave env fs now fullPath (st.data.take limit)
    else
      if st.readErr then ⟨.error .saveFailed, fs, none⟩
      else finishSave env fs now fullPath st.data

/-! ## Callback protocol handler (internal/server/callback.go)

The handler is embedded as a pure function of its parsed inputs. Its
collaborators appear as parameters: `settingsLoad` is the result of
`settingsStore.Load()` (`.error` a hard load failure, `.ok none` the
ErrConfigNotFound case where `settings` is nil, `.ok (some st)` loaded
settings), and `saveDoc` is `saveDocument` (download plus store write),
returning whether it succeeded. The outcome records the HTTP status
given to respondJSON, the JSON body, and every (path, url) pair the
handler passed to `saveDocument` — an empty list means no store write
was requested. -/

/-- Go `config.Settings` (src/unnamed/part_002). -/
structure Settings where
  documentServerURL : Str
  documentServerSecret : Str
  baseURL : Str
deriving DecidableEq, Repr

/-- The parsed callback body (`server.CallbackRequest`); fields the
handler never reads are omitted. `status` is the raw integer status. -/
structure CallbackRequest where
  key : Str
  status : Int
  url : Str
  token : Str
deriving DecidableEq, Repr

/-- The callback JSON response body, an error code of 0 or 1. -/
structure CallbackResponse where
  error : Nat
deriving DecidableEq, Repr

/-- Observable outcome of one callback: HTTP status, body, and the
store writes requested. -/
structure CallbackOutcome where
  httpStatus : Nat
  response : CallbackResponse
  saves : List (Str × Str)
deriving DecidableEq, Repr

/-- The status-dispatch switch of `handleCallback` (statuses fixed by
the external protocol: Editing=1, Saved=2, SaveError=3, Closed=4,
ForceSave=6, ForceSaveError=7; any other value hits the logging
default). -/
def dispatchStatus (saveDoc : Str → Str → Bool) (filePath : Str)
    (req : CallbackRequest) : CallbackOutcome :=
  if req.status = 1 then ⟨200, ⟨0⟩, []⟩
  else if req.status = 2 ∨ req.status = 6 then
    if req.url = [] then ⟨200, ⟨1⟩, []⟩
    else if saveDoc filePath req.url then ⟨200, ⟨0⟩, [(filePath, req.url)]⟩
    else ⟨200, ⟨1⟩, [(filePath, req.url)]⟩
  else if req.status = 4 then ⟨200, ⟨0⟩, []⟩
  else if req.status = 3 ∨ req.status = 7 then ⟨200, ⟨0⟩, []⟩
  else ⟨200, ⟨0⟩, []⟩

/-- Model of `Server.handleCallback` (internal/server/callback.go:59):
path-parameter check, body parse, settings load, token verification
when a secret is configured, then status dispatch. Every response goes
through respondJSON with http.StatusOK. -/
def handleCallback (settingsLoad : Except Unit (Option Settings))
    (saveDoc : Str → Str → Bool) (pathParam : Str)
    (body : Option CallbackRequest) : CallbackOutcome :=
  if pathParam = [] then ⟨200, ⟨1⟩, []⟩
  else
    match body with
    | none => ⟨200, ⟨1⟩, []⟩
    | some req =>
      match settingsLoad with
      | .error _ => ⟨200, ⟨1⟩, []⟩
      | .ok settingsOpt =>
        match settingsOpt with
        | some st =>
          if st.documentServerSecret ≠ [] then
            if req.token = [] then ⟨200, ⟨1⟩, []⟩
            else
              match Jwt.Verify st.documentServerSecret req.token with
              | .error _ => ⟨200, ⟨1⟩, []⟩
              | .ok _ => dispatchStatus saveDoc pathParam req
          else dispatchStatus saveDoc pathParam req
        | none => dispatchStatus saveDoc pathParam req

/-! ## Session descriptor builder (internal/server/pages.go) -/

/-- Upper-case hexadecimal digit for a value below 16. -/
def hexDigitUpper (n : Nat) : Char :=
  if n < 10 then Char.ofNat ('0'.toNat + n) else Char.ofNat ('A'.toNat + (n - 10))

/-- Model of net/url.QueryEscape on one character (Go standard library,
external): unreserved characters pass through, space becomes '+', the
rest are percent-encoded. Non-ASCII code points are escaped as single
units rather than as their UTF-8 byte sequences; no verified claim
depends on the escaped form. -/
def queryEscapeChar (c : Char) : Str :=
  if ('a' ≤ c ∧ c ≤ 'z') ∨ ('A' ≤ c ∧ c ≤ 'Z') ∨ ('0' ≤ c ∧ c ≤ '9') ∨
      c = '-' ∨ c = '_' ∨ c = '.' ∨ c = '~' then [c]
  else if c = ' ' then ['+']
  else ['%', hexDigitUpper (c.toNat / 16 % 16), hexDigitUpper (c.toNat % 16)]

/-- Model of net/url.QueryEscape. -/
def queryEscape (s : Str) : Str := s.foldr (fun c acc => queryEscapeChar c ++ acc) []

/-- Model of strings.TrimSuffix with the one-character suffix "/". -/
def trimSlashSuffix (s : Str) : Str :=
  if s.getLast? = some '/' then s.dropLast else s

/-- Server-side context the URL builders read: the server's cached
baseURL and the BaseURL of the settings store (when a load succeeds). -/
structure ServerCtx where
  baseURL : Str
  settingsBaseURL : Option Str
deriving DecidableEq, Repr

/-- Model of `Server.getEffectiveBaseURL` (internal/server/convert.go):
cached baseURL first, then the stored BaseURL, then the localhost
fallback. -/
def getEffectiveBaseURL (ctx : ServerCtx) : Str :=
  if ctx.baseURL ≠ [] then ctx.baseURL
  else
    match ctx.settingsBaseURL with
    | some b => if b ≠ [] then b else ("http://localhost:10099".data)
    | none => "http://localhost:10099".data

/-- Model of `Server.buildDownloadURL` (internal/server/convert.go:177). -/
def buildDownloadURL (ctx : ServerCtx) (filePath : Str) : Str :=
  trimSlashSuffix (getEffectiveBaseURL ctx) ++ "/download?path=".data ++
    queryEscape filePath

/-- Model of `Server.buildCallbackURL` (internal/server/pages.go:414). -/
def buildCallbackURL (ctx : ServerCtx) (filePath : Str) : Str :=
  (if ctx.baseURL = [] then ("http://localhost:8080".data) else ctx.baseURL) ++
    "/callback?path=".data ++ queryEscape filePath

/-- Model of `ConfigBuilder.generateDocumentKey`: the SHA-256-based
20-hex-character fingerprint of `path|modTimeNano` is modelled as a
deterministic injective fingerprint of the same two inputs (the hash
itself is external crypto; no verified claim depends on its format). -/
def generateDocumentKey (filePath : Str) (modTime : Int) : Str :=
  filePath ++ '|' :: (toString modTime).data

/-- Go `server.editorConfigRequest` (internal/server/pages.go:342). -/
structure EditorConfigRequest where
  filePath : Str
  fileInfo : FileInfo
  userID : Str
  userName : Str
  lang : Str
  jwtSecret : Str
  viewMode : Bool
deriving DecidableEq, Repr

/-- The editor configuration map built by `buildEditorConfig`,
flattened into a record (document.*, documentType, editorConfig.*,
token). -/
structure EditorConfig where
  fileType : Str
  key : Str
  title : Str
  url : Str
  permEdit : Bool
  permDownload : Bool
  permPrint : Bool
  documentType : Str
  callbackUrl : Str
  lang : Str
  mode : Str
  userId : Str
  userName : Str
  token : Option Str
deriving DecidableEq, Repr

/-- Serialization of the claims map passed to Sign by
`buildEditorConfig` (models the JSON encoding of the config map; the
token field is not part of the signed map). -/
def serializeEditorConfig (c : EditorConfig) : Str :=
  c.fileType ++ '\n' :: c.key ++ '\n' :: c.title ++ '\n' :: c.url ++
    '\n' :: (if c.permEdit then ['1'] else ['0']) ++
    '\n' :: c.documentType ++ '\n' :: c.callbackUrl ++ '\n' :: c.lang ++
    '\n' :: c.mode ++ '\n' :: c.userId ++ '\n' :: c.userName

/-- Model of `Server.buildEditorConfig` (internal/server/pages.go:354):
look up the format (failing for unsupported extensions), derive the
edit mode from `Editable && !ViewMode`, build key and URLs, and sign
the map when a JWT secret is configured. -/
def buildEditorConfig (ctx : ServerCtx) (req : EditorConfigRequest) :
    Except Unit EditorConfig :=
  match getFormat req.fileInfo.extension with
  | none => .error ()
  | some formatInfo =>
    let canEdit := formatInfo.editable && !req.viewMode
    let mode := if canEdit then ("edit".data) else ("view".data)
    let docKey := generateDocumentKey req.filePath req.fileInfo.modTime
    let downloadURL := buildDownloadURL ctx req.filePath
    let callbackURL := buildCallbackURL ctx req.filePath
    let cfg : EditorConfig :=
      ⟨req.fileInfo.extension, docKey, req.fileInfo.name, downloadURL,
        canEdit, true, true, formatInfo.type, callbackURL, req.lang, mode,
        req.userID, req.userName, none⟩
    if req.jwtSecret ≠ [] then
      .ok { cfg with
        token := some (Jwt.Sign req.jwtSecret (serializeEditorConfig cfg)) }
    else .ok cfg

/-! ## CGI path recovery (cmd/connector/main.go) -/

/-- The marker identifying the CGI script in REQUEST_URI. -/
def cgiMarker : Str := "go-index.cgi".data

/-- Model of strings.Index for a non-empty needle: index of the first
occurrence, `none` when absent. -/
def substrIdx (needle : Str) : Str → Option Nat
  | [] => if needle = [] then some 0 else none
  | c :: rest =>
    if needle.isPrefixOf (c :: rest) then some 0
    else (substrIdx needle rest).map (· + 1)

/-- Model of `extractPathFromRequestURI` (cmd/connector/main.go:302):
locate the go-index.cgi marker in the REQUEST_URI value, take the text
after it, split path from query at the first '?', and normalize the
empty and bare-slash paths to "/". Without the marker the result is
("/", ""). -/
def extractPathFromRequestURI (uri : Str) : Str × Str :=
  match substrIdx cgiMarker uri with
  | none => (['/'], [])
  | some idx =>
    let relPath := uri.drop (idx + cgiMarker.length)
    if relPath = [] then (['/'], [])
    else
      let pq :=
        match splitFirst '?' relPath with
        | some (p, q) => (p, q)
        | none => (relPath, [])
      if pq.1 = [] ∨ pq.1 = ['/'] then (['/'], pq.2) else pq

/-! ## Definitions written from the spec's words (for comparison with
the code-derived definitions above) -/

/-- Written from the spec's words (§4.4): a resolved absolute path lies
within a configured root when it is the root itself or sits below it
past a path separator. -/
def specWithinRoot (root p : Str) : Bool :=
  p = root || (root ++ ['/']).isPrefixOf p

/-- Written from the spec's words (§4.8 CGI path recovery): take the
text after the marker, split it at the first '?' into path and query,
and normalize an empty or slash-only path remainder to "/" with the
query preserved. -/
def specRecoverAfterMarker (rest : Str) : Str × Str :=
  let pq :=
    match splitFirst '?' rest with
    | some (p, q) => (p, q)
    | none => (rest, [])
  if pq.1 = [] ∨ pq.1 = ['/'] then (['/'], pq.2) else pq

/-- The callback's token requirement (from §4.6): nothing when no
settings were loaded or no secret is configured; otherwise a non-empty
token that verifies against the configured secret. -/
def tokenOk (settingsOpt : Option Settings) (req : CallbackRequest) : Prop :=
  match settingsOpt with
  | none => True
  | some st =>
    st.documentServerSecret = [] ∨
      (req.token ≠ [] ∧
        ∃ c, Jwt.Verify st.documentServerSecret req.token = .ok c)

/-! ## Claim theorems -/

/-- C4: for every claim map and secret, verify(secret, sign(secret,
claims)) succeeds with equivalent claims; verify with any other secret
on that token fails with InvalidToken; and verify of the empty string
or of a syntactically malformed token fails with InvalidToken. -/
theorem claim_C4_sign_verify (claims secret other : Str) (hne : other ≠ secret) :
    Jwt.Verify secret (Jwt.Sign secret claims) = .ok claims ∧
    Jwt.Verify other (Jwt.Sign secret claims) = .error .invalidToken ∧
    Jwt.Verify secret [] = .error .invalidToken ∧
    Jwt.Verify secret ("invalid.token.format".data) = .error .invalidToken := by
  refine ⟨Jwt.verify_sign secret claims,
    Jwt.verify_wrong_secret secret other claims hne, rfl, ?_⟩
  have hsplit : splitOnChar '.' "invalid.token.format".data =
      ["invalid".data, "token".data, "format".data] := by decide
  have hhd : ("invalid".data : Str) ≠ Jwt.headerEnc := by decide
  unfold Jwt.Verify
  rw [hsplit]
  simp [hhd]

theorem claim_C4_sign_verify_witness :
    Jwt.Verify ("s1".data) (Jwt.Sign ("s1".data) ("k:v".data)) =
      .ok ("k:v".data) ∧
    Jwt.Verify ("s2".data) (Jwt.Sign ("s1".data) ("k:v".data)) =
      .error .invalidToken ∧
    Jwt.Verify ("s1".data) [] = .error .invalidToken ∧
    Jwt.Verify ("s1".data) ("invalid.token.format".data) =
      .error .invalidToken :=
  claim_C4_sign_verify ("k:v".data) ("s1".data) ("s2".data) (by decide)

/-- C7: every registry entry has at most one of editable/viewOnly/
convertible set, and every convertible entry names a non-empty
conversion target whose own registry entry exists and is editable. -/
theorem claim_C7_registry_invariants :
    ∀ p ∈ initFormats,
      ¬ (p.2.editable = true ∧ p.2.viewOnly = true) ∧
      ¬ (p.2.editable = true ∧ p.2.convertible = true) ∧
      ¬ (p.2.viewOnly = true ∧ p.2.convertible = true) ∧
      (p.2.convertible = true →
        p.2.convertTarget ≠ [] ∧
        (getFormat p.2.convertTarget).map Format.editable = some true) := by
  decide

theorem claim_C7_registry_invariants_witness :
    ("doc".data,
      ({ extension := "doc".data, type := "word".data, editable := false,
         viewOnly := false, convertible := true,
         convertTarget := "docx".data } : Format)) ∈ initFormats ∧
    "docx".data ≠ ([] : Str) ∧
    (getFormat ("docx".data)).map Format.editable = some true := by
  refine ⟨by decide, ?_, ?_⟩
  · exact (claim_C7_registry_invariants
      ("doc".data,
        { extension := "doc".data, type := "word".data, editable := false,
          viewOnly := false, convertible := true,
          convertTarget := "docx".data })
      (by decide)).2.2.2 (by decide) |>.1
  · exact (claim_C7_registry_invariants
      ("doc".data,
        { extension := "doc".data, type := "word".data, editable := false,
          viewOnly := false, convertible := true,
          convertTarget := "docx".data })
      (by decide)).2.2.2 (by decide) |>.2

/-- C1 (code bug evaluation): with root "/data" configured, the
caller path "database/secret" — with or without its leading slash —
resolves successfully to "/database/secret", a path outside the root:
the Go check `strings.HasPrefix(absPath, absBase)` admits sibling paths
that merely share the root as a string prefix. -/
theorem claim_C1_prefix_escape :
    resolvePath ("/".data) ⟨"/data".data, 0⟩ ("database/secret".data) =
      .ok ("/database/secret".data) ∧
    specWithinRoot ("/data".data) ("/database/secret".data) = false ∧
    resolvePath ("/".data) ⟨"/data".data, 0⟩ ("database/secret".data) =
      resolvePath ("/".data) ⟨"/data".data, 0⟩ ("/database/secret".data) := by
  refine ⟨by decide, by decide, by decide⟩

/-- C10: the empty path fails with InvalidPath on all three store
operations, for every configured root (including none), before any
filesystem access — the result and the filesystem are independent of
the filesystem contents. -/
theorem claim_C10_empty_path (cwd : Str) (s : Service) (fs : Fs)
    (env : SaveEnv) (now : Int) (st : ByteStream) :
    getFileInfo cwd s fs [] = .error .invalidPath ∧
    getFileContent cwd s fs [] = .error .invalidPath ∧
    saveFile cwd env now s fs [] st = ⟨.error .invalidPath, fs, none⟩ := by
  refine ⟨?_, ?_, ?_⟩ <;>
    simp [getFileInfo, getFileContent, saveFile, resolvePath]

/-- C8: when the gateway URI contains the CGI marker, the recovered
path and query are the text after the marker split at the first '?',
with an empty or slash-only remainder normalized to "/"; without the
marker the result is ("/", ""); including the spec's two examples. -/
theorem claim_C8_cgi_recovery :
    (∀ uri, substrIdx cgiMarker uri = none →
      extractPathFromRequestURI uri = (['/'], [])) ∧
    (∀ uri idx, substrIdx cgiMarker uri = some idx →
      extractPathFromRequestURI uri =
        specRecoverAfterMarker (uri.drop (idx + cgiMarker.length))) ∧
    extractPathFromRequestURI
        "/cgi/ThirdParty/onlyoffice-fnos/go-index.cgi/editor?path=/vol1/test.docx".data =
      ("/editor".data, "path=/vol1/test.docx".data) ∧
    extractPathFromRequestURI
        "/cgi/ThirdParty/onlyoffice-fnos/go-index.cgi".data = (['/'], []) := by
  refine ⟨?_, ?_, by decide, by decide⟩
  · intro uri h
    simp [extractPathFromRequestURI, h]
  · intro uri idx h
    simp only [extractPathFromRequestURI, h]
    by_cases hrel : uri.drop (idx + cgiMarker.length) = []
    · simp [hrel, specRecoverAfterMarker, splitFirst]
    · simp [hrel, specRecoverAfterMarker]

theorem claim_C8_cgi_recovery_witness :
    extractPathFromRequestURI ("/abc".data) = (['/'], []) ∧
    extractPathFromRequestURI ("go-index.cgi/a?b".data) =
      specRecoverAfterMarker ("go-index.cgi/a?b".data.drop (0 + cgiMarker.length)) :=
  ⟨claim_C8_cgi_recovery.1 _ (by decide),
   claim_C8_cgi_recovery.2.1 _ 0 (by decide)⟩

/-- With a present path, a parsed body, and the token requirement
satisfied, the callback handler reaches the status dispatch. -/
theorem handleCallback_reaches_dispatch (saveDoc : Str → Str → Bool)
    (settingsOpt : Option Settings) (pathParam : Str) (req : CallbackRequest)
    (hp : pathParam ≠ []) (htok : tokenOk settingsOpt req) :
    handleCallback (.ok settingsOpt) saveDoc pathParam (some req) =
      dispatchStatus saveDoc pathParam req := by
  unfold handleCallback
  rw [if_neg hp]
  cases settingsOpt with
  | none => rfl
  | some st =>
    simp only [tokenOk] at htok
    rcases htok with hempty | ⟨htne, c, hver⟩
    · simp [hempty]
    · have hsec : st.documentServerSecret ≠ [] ∨
          st.documentServerSecret = [] := by tauto
      by_cases hs : st.documentServerSecret = []
      · simp [hs]
      · simp only [ne_eq, hs, not_false_iff, if_true, if_neg htne]
        rw [hver]

/-- C2: while a shared secret is configured, a callback whose token is
absent or fails verification gets error=1 regardless of status and
triggers no store write; the same payload with a valid token and a
log-only status gets error=0. -/
theorem claim_C2_token_required (saveDoc : Str → Str → Bool) (st : Settings)
    (hsec : st.documentServerSecret ≠ []) :
    (∀ pathParam req,
      (req.token = [] ∨
        ∀ c, Jwt.Verify st.documentServerSecret req.token ≠ .ok c) →
      handleCallback (.ok (some st)) saveDoc pathParam (some req) =
        ⟨200, ⟨1⟩, []⟩) ∧
    (∀ pathParam req, pathParam ≠ [] →
      (∃ c, Jwt.Verify st.documentServerSecret req.token = .ok c) →
      (req.status = 1 ∨ req.status = 3 ∨ req.status = 4 ∨ req.status = 7) →
      handleCallback (.ok (some st)) saveDoc pathParam (some req) =
        ⟨200, ⟨0⟩, []⟩) := by
  constructor
  · intro pathParam req hbad
    unfold handleCallback
    by_cases hp : pathParam = []
    · simp [hp]
    · rw [if_neg hp]
      simp only [ne_eq, hsec, not_false_iff, if_true]
      rcases hbad with htok | hver
      · simp [htok]
      · by_cases htok : req.token = []
        · simp [htok]
        · rw [if_neg htok]
          cases hv : Jwt.Verify st.documentServerSecret req.token with
          | error e => rfl
          | ok c => exact absurd hv (hver c)
  · intro pathParam req hp hver hst
    obtain ⟨c, hv⟩ := hver
    have htne : req.token ≠ [] := by
      intro he
      rw [he] at hv
      have hnone : Jwt.Verify st.documentServerSecret [] =
          .error .invalidToken := rfl
      rw [hnone] at hv
      exact Except.noConfusion hv
    rw [handleCallback_reaches_dispatch saveDoc (some st) pathParam req hp
      (by exact Or.inr ⟨htne, c, hv⟩)]
    unfold dispatchStatus
    rcases hst with h1 | h3 | h4 | h7
    · simp [h1]
    · rw [h3]; norm_num
    · rw [h4]; norm_num
    · rw [h7]; norm_num

theorem claim_C2_token_required_witness :
    handleCallback (.ok (some ⟨[], "s".data, []⟩)) (fun _ _ => true)
        ("p".data) (some ⟨"k".data, 1, [], []⟩) = ⟨200, ⟨1⟩, []⟩ ∧
    handleCallback (.ok (some ⟨[], "s".data, []⟩)) (fun _ _ => true)
        ("p".data)
        (some ⟨"k".data, 1, [], Jwt.Sign ("s".data) ("cl".data)⟩) =
      ⟨200, ⟨0⟩, []⟩ :=
  ⟨(claim_C2_token_required (fun _ _ => true) ⟨[], "s".data, []⟩
      (by decide)).1 ("p".data) ⟨"k".data, 1, [], []⟩ (Or.inl rfl),
   (claim_C2_token_required (fun _ _ => true) ⟨[], "s".data, []⟩
      (by decide)).2 ("p".data)
      ⟨"k".data, 1, [], Jwt.Sign ("s".data) ("cl".data)⟩
      (by decide) ⟨"cl".data, Jwt.verify_sign ("s".data) ("cl".data)⟩
      (Or.inl rfl)⟩

/-- C5: with the path present and the token requirement satisfied,
statuses 1, 3, 4, 7 and any unrecognized status respond error=0 with
no store write, while statuses 2 and 6 with an empty result URL respond
error=1 with no store write. -/
theorem claim_C5_status_dispatch (saveDoc : Str → Str → Bool)
    (settingsOpt : Option Settings) (pathParam : Str) (req : CallbackRequest)
    (hp : pathParam ≠ []) (htok : tokenOk settingsOpt req) :
    ((req.status = 1 ∨ req.status = 3 ∨ req.status = 4 ∨ req.status = 7 ∨
        (req.status ≠ 1 ∧ req.status ≠ 2 ∧ req.status ≠ 3 ∧ req.status ≠ 4 ∧
          req.status ≠ 6 ∧ req.status ≠ 7)) →
      handleCallback (.ok settingsOpt) saveDoc pathParam (some req) =
        ⟨200, ⟨0⟩, []⟩) ∧
    (((req.status = 2 ∨ req.status = 6) ∧ req.url = []) →
      handleCallback (.ok settingsOpt) saveDoc pathParam (some req) =
        ⟨200, ⟨1⟩, []⟩) := by
  rw [handleCallback_reaches_dispatch saveDoc settingsOpt pathParam req hp htok]
  constructor
  · intro hst
    unfold dispatchStatus
    rcases hst with h | h | h | h | ⟨h1, h2, h3, h4, h6, h7⟩
    · simp [h]
    · rw [h]; norm_num
    · rw [h]; norm_num
    · rw [h]; norm_num
    · simp [h1, h2, h3, h4, h6, h7]
  · rintro ⟨hst, hurl⟩
    unfold dispatchStatus
    rcases hst with h | h
    · rw [h]; norm_num [hurl]
    · rw [h]; norm_num [hurl]

theorem claim_C5_status_dispatch_witness :
    handleCallback (.ok none) (fun _ _ => true) ("p".data)
        (some ⟨"k".data, 42, "u".data, []⟩) = ⟨200, ⟨0⟩, []⟩ ∧
    handleCallback (.ok none) (fun _ _ => true) ("p".data)
        (some ⟨"k".data, 2, [], []⟩) = ⟨200, ⟨1⟩, []⟩ :=
  ⟨(claim_C5_status_dispatch (fun _ _ => true) none ("p".data)
      ⟨"k".data, 42, "u".data, []⟩ (by decide) trivial).1
      (by norm_num),
   (claim_C5_status_dispatch (fun _ _ => true) none ("p".data)
      ⟨"k".data, 2, [], []⟩ (by decide) trivial).2
      ⟨Or.inl rfl, rfl⟩⟩

/-- C9: whatever the inputs — missing path, unparsable body, failed
settings load, missing or invalid token, save failure, or success —
the callback handler responds with HTTP 200 and a JSON body whose
error field is 0 or 1. -/
theorem claim_C9_always_http_200 (settingsLoad : Except Unit (Option Settings))
    (saveDoc : Str → Str → Bool) (pathParam : Str)
    (body : Option CallbackRequest) :
    (handleCallback settingsLoad saveDoc pathParam body).httpStatus = 200 ∧
    ((handleCallback settingsLoad saveDoc pathParam body).response.error = 0 ∨
      (handleCallback settingsLoad saveDoc pathParam body).response.error = 1) := by
  unfold handleCallback dispatchStatus
  repeat' split
  all_goals first
    | exact ⟨rfl, Or.inl rfl⟩
    | exact ⟨rfl, Or.inr rfl⟩

/-- Frame property of `saveFile`: the temporary file never survives the
call, and unless the save succeeded the filesystem is unchanged. -/
theorem saveFile_frame (cwd : Str) (env : SaveEnv) (now : Int) (s : Service)
    (fs : Fs) (path : Str) (st : ByteStream) :
    (saveFile cwd env now s fs path st).tempLeft = none ∧
    ((saveFile cwd env now s fs path st).result = .ok () ∨
      (saveFile cwd env now s fs path st).fs = fs) := by
  unfold saveFile finishSave
  dsimp only
  repeat' split
  all_goals first
    | exact ⟨rfl, Or.inl rfl⟩
    | exact ⟨rfl, Or.inr rfl⟩

/-- C3: with a positive size cap and a stream yielding more than the
cap, a save that reaches the copy stage fails with TooLarge, the
filesystem (and so the destination path) is unchanged, and the
temporary file is removed; and on any failing save the filesystem is
unchanged and no temporary file is left behind. -/
theorem claim_C3_too_large_atomic :
    (∀ cwd env now s fs path st fullPath,
      resolvePath cwd s path = .ok fullPath →
      env.mkdirOk = true → env.createTempOk = true →
      0 < s.maxFileSize → s.maxFileSize < (st.data.length : Int) →
      saveFile cwd env now s fs path st = ⟨.error .tooLarge, fs, none⟩) ∧
    (∀ cwd env now s fs path st e,
      (saveFile cwd env now s fs path st).result = .error e →
      (saveFile cwd env now s fs path st).fs = fs ∧
      (saveFile cwd env now s fs path st).tempLeft = none) := by
  constructor
  · intro cwd env now s fs path st fullPath hres hmk hct hpos hlen
    unfold saveFile
    rw [hres]
    have hlimit : min (s.maxFileSize.toNat + 1) st.data.length =
        s.maxFileSize.toNat + 1 := by
      apply Nat.min_eq_left
      omega
    simp only [hmk, hct, Bool.not_true, if_neg (by simp : ¬ (False : Prop)),
      if_pos hpos]
    rw [hlimit]
    simp
  · intro cwd env now s fs path st e hres
    obtain ⟨htemp, hok | hfs⟩ := saveFile_frame cwd env now s fs path st
    · rw [hok] at hres
      exact Except.noConfusion hres
    · exact ⟨hfs, htemp⟩

theorem claim_C3_too_large_atomic_witness :
    saveFile ("/".data) ⟨true, true, true, true⟩ 0 ⟨[], 1⟩ []
        ("/a".data) ⟨[7, 7], false⟩ = ⟨.error .tooLarge, [], none⟩ ∧
    (saveFile ("/".data) ⟨true, true, true, true⟩ 0 ⟨[], 1⟩ []
        ("/a".data) ⟨[7, 7], false⟩).fs = [] ∧
    (saveFile ("/".data) ⟨true, true, true, true⟩ 0 ⟨[], 1⟩ []
        ("/a".data) ⟨[7, 7], false⟩).tempLeft = none :=
  ⟨claim_C3_too_large_atomic.1 ("/".data) ⟨true, true, true, true⟩ 0 ⟨[], 1⟩
      [] ("/a".data) ⟨[7, 7], false⟩ ("/a".data) (by decide) rfl rfl
      (by decide) (by decide),
   claim_C3_too_large_atomic.2 ("/".data) ⟨true, true, true, true⟩ 0 ⟨[], 1⟩
      [] ("/a".data) ⟨[7, 7], false⟩ .tooLarge (by decide)⟩

/-- A supported extension always yields a configuration whose mode and
edit permission are determined by `Editable && !ViewMode`. -/
theorem buildEditorConfig_ok (ctx : ServerCtx) (req : EditorConfigRequest)
    (fi : Format) (h : getFormat req.fileInfo.extension = some fi) :
    ∃ cfg, buildEditorConfig ctx req = .ok cfg ∧
      cfg.mode = (if (fi.editable && !req.viewMode) = true
        then ("edit".data) else ("view".data)) ∧
      cfg.permEdit = (fi.editable && !req.viewMode) := by
  unfold buildEditorConfig
  rw [h]
  dsimp only
  by_cases hs : req.jwtSecret ≠ []
  · rw [if_pos hs]
    exact ⟨_, rfl, rfl, rfl⟩
  · rw [if_neg hs]
    exact ⟨_, rfl, rfl, rfl⟩

/-- C6: for every build request whose extension is supported, the
descriptor's mode is "edit" exactly when the format is editable and
view mode was not requested, "view" otherwise, with the edit permission
flag matching. -/
theorem claim_C6_edit_mode (ctx : ServerCtx) (req : EditorConfigRequest)
    (fi : Format) (h : getFormat req.fileInfo.extension = some fi) :
    ∃ cfg, buildEditorConfig ctx req = .ok cfg ∧
      (cfg.mode = "edit".data ↔ fi.editable = true ∧ req.viewMode = false) ∧
      (cfg.mode = "edit".data ∨ cfg.mode = "view".data) ∧
      cfg.permEdit = (fi.editable && !req.viewMode) := by
  obtain ⟨cfg, hok, hmode, hperm⟩ := buildEditorConfig_ok ctx req fi h
  refine ⟨cfg, hok, ?_, ?_, hperm⟩
  · rw [hmode]
    by_cases hc : (fi.editable && !req.viewMode) = true
    · rw [if_pos hc]
      have hc' : fi.editable = true ∧ req.viewMode = false := by simpa using hc
      exact ⟨fun _ => hc', fun _ => rfl⟩
    · rw [if_neg hc]
      constructor
      · intro hx
        exact absurd hx (by decide)
      · rintro ⟨hed, hvm⟩
        exfalso
        apply hc
        rw [hed, hvm]
        rfl
  · rw [hmode]
    by_cases hc : (fi.editable && !req.viewMode) = true
    · rw [if_pos hc]
      exact Or.inl rfl
    · rw [if_neg hc]
      exact Or.inr rfl

theorem claim_C6_edit_mode_witness :
    ∃ cfg,
      buildEditorConfig ⟨[], none⟩
          ⟨"/d/r.docx".data, ⟨"/d/r.docx".data, "r.docx".data, "docx".data,
            3, 5⟩, "u".data, "n".data, "en".data, [], false⟩ = .ok cfg ∧
      (cfg.mode = "edit".data ↔ (true = true ∧ false = false)) ∧
      (cfg.mode = "edit".data ∨ cfg.mode = "view".data) ∧
      cfg.permEdit = (true && !false) :=
  claim_C6_edit_mode ⟨[], none⟩
    ⟨"/d/r.docx".data, ⟨"/d/r.docx".data, "r.docx".data, "docx".data,
      3, 5⟩, "u".data, "n".data, "en".data, [], false⟩
    ⟨"docx".data, "word".data, true, false, false, []⟩ (by decide)
